import Mathlib

/-!
Shallow embedding of the AETHER evolution engine
(src/src/evolution_engine/evolver.py) and verification of the claims of
the natural-language specification against it.

Modelling conventions:
* Python floats are modelled as rationals (ℚ); the float literals of the
  source (0.1, 0.02, 1.1, ...) become the exact rationals they denote.
* Randomness is passed explicitly: every call to random.random,
  random.uniform, random.sample and np.random.normal reads from a
  caller-supplied oracle, indexed by the position of the draw.  Any
  concrete run of the Python program corresponds to some oracle.
* Fallible Python operations (random.sample with k > len, list indexing
  out of range, max over an empty sequence, division by zero) are
  modelled with Option: a raised exception becomes none.
* elite_size = int(population_size * 0.1) is modelled as
  population_size / 10 (natural division); for the population sizes used
  in concrete runs below the float product is exact, so the two agree.
-/

namespace Aether

/-- Gene dataclass (evolver.py lines 16-23): a named bounded parameter.
The field mutation_rate defaults to 0.1. -/
structure Gene where
  name : String
  value : ℚ
  min_value : ℚ
  max_value : ℚ
  mutation_rate : ℚ := 1/10
deriving DecidableEq, Repr

/-- Organism dataclass (evolver.py lines 25-31): a strategy genome.
fitness defaults to 0.0 and generation to 0. -/
structure Organism where
  strategy_id : String
  genes : List Gene
  fitness : ℚ := 0
  generation : ℕ := 0
deriving DecidableEq, Repr

instance : Inhabited Organism := ⟨⟨"", [], 0, 0⟩⟩

/-- EvolutionEngine state (evolver.py lines 33-40): the constructor
stores population_size and mutation_rate and starts with an empty
population at generation 0. -/
structure EvolutionEngine where
  population_size : ℕ
  mutation_rate : ℚ
  population : List Organism
  generation : ℕ
deriving DecidableEq, Repr

/-- EvolutionEngine.__init__ (evolver.py lines 36-40): performs no
validation whatsoever; it merely stores the arguments and initializes
the empty population and the generation counter. -/
def mkEngine (population_size : ℕ := 50) (mutation_rate : ℚ := 1/10) :
    EvolutionEngine :=
  { population_size := population_size, mutation_rate := mutation_rate,
    population := [], generation := 0 }

/-- One entry of the list returned by _extract_gene_definitions. -/
structure GeneDef where
  name : String
  value : ℚ
  lo : ℚ
  hi : ℚ
deriving DecidableEq, Repr

/-- Python dict.get(key, default) on the base-strategy dict. -/
def pyGet (strategy : String → Option ℚ) (k : String) (d : ℚ) : ℚ :=
  (strategy k).getD d

/-- _extract_gene_definitions (evolver.py lines 71-110): the six
hard-coded gene definitions with their bounds. -/
def extract_gene_definitions (strategy : String → Option ℚ) : List GeneDef :=
  [ ⟨"min_profit_threshold", pyGet strategy "min_profit_threshold" (1/50), 1/1000, 1/10⟩,
    ⟨"max_gas_price", pyGet strategy "max_gas_price" 100, 10, 500⟩,
    ⟨"position_size", pyGet strategy "position_size" (1/10), 1/100, 1/2⟩,
    ⟨"slippage_tolerance", pyGet strategy "slippage_tolerance" (1/200), 1/1000, 1/50⟩,
    ⟨"stop_loss", pyGet strategy "stop_loss" (1/20), 1/100, 1/5⟩,
    ⟨"take_profit", pyGet strategy "take_profit" (1/10), 1/50, 1/2⟩ ]

/-- The clamping idiom max(lo, min(hi, v)) used at evolver.py
lines 55 and 187. -/
def clamp (lo hi v : ℚ) : ℚ :=
  max lo (min hi v)

/-- Python enumerate, used to index oracle draws by position. -/
def enumF : ℕ → List α → List (ℕ × α)
  | _, [] => []
  | i, x :: xs => (i, x) :: enumF (i+1) xs

/-- initialize_population (evolver.py lines 42-69).  u i j is the
random.uniform(-0.2, 0.2) draw for member i, gene j.  Each gene value is
base * (1 + u) clamped into [lo, hi]; organisms are tagged with the
engine's current generation and ids gen{g}_org{i}.  Note Gene is built
without mutation_rate, so the 0.1 default applies. -/
def initialize_population (e : EvolutionEngine)
    (strategy : String → Option ℚ) (u : ℕ → ℕ → ℚ) : EvolutionEngine :=
  let gene_definitions := extract_gene_definitions strategy
  let pop := (List.range e.population_size).map (fun i =>
    let genes := (enumF 0 gene_definitions).map (fun p =>
      let value := p.2.value * (1 + u i p.1)
      { name := p.2.name, value := clamp p.2.lo p.2.hi value,
        min_value := p.2.lo, max_value := p.2.hi : Gene })
    { strategy_id := "gen" ++ toString e.generation ++ "_org" ++ toString i,
      genes := genes, fitness := 0, generation := e.generation : Organism })
  { e with population := pop }

/-- The dict comprehension {gene.name: gene.value for gene in genes}
followed by .get(k, d) (evolver.py lines 117-122): a later gene with the
same name overwrites an earlier one, so lookup returns the last
occurrence. -/
def genesDictGet (genes : List Gene) (k : String) (d : ℚ) : ℚ :=
  match (genes.filter (fun g => g.name = k)).getLast? with
  | some g => g.value
  | none => d

/-- evaluate_fitness (evolver.py lines 112-135).  market_factor is the
random.uniform(0.8, 1.2) draw.  Python raises ZeroDivisionError when a
divisor is zero, modelled as none.  The penalty loop multiplies fitness
by 0.8 for every gene hugging its bounds.  The computed fitness is
written into the organism. -/
def evaluate_fitness (o : Organism) (market_factor : ℚ) : Option Organism :=
  let profit_factor := genesDictGet o.genes "min_profit_threshold" (1/50) * 100
  let stop_loss := genesDictGet o.genes "stop_loss" (1/20)
  let gas := genesDictGet o.genes "max_gas_price" 100
  if stop_loss * 10 = 0 then none
  else if gas / 100 = 0 then none
  else
    let risk_factor := 1 / (stop_loss * 10)
    let efficiency_factor := 1 / (gas / 100)
    let base := profit_factor * risk_factor * efficiency_factor * market_factor
    let fitness := o.genes.foldl (fun f g =>
      if g.value ≤ g.min_value * (11/10) ∨ g.max_value * (9/10) ≤ g.value
      then f * (4/5) else f) base
    some { o with fitness := fitness }

/-- Python max(l, key=f): scans left to right and replaces the current
best only on a strictly greater key, so the first maximal element wins;
max of an empty sequence raises (none). -/
def pyMaxBy (f : α → ℚ) : List α → Option α
  | [] => none
  | x :: xs => some (xs.foldl (fun acc y => if f acc < f y then y else acc) x)

/-- random.sample(pop, k) (evolver.py line 142): raises ValueError iff
k > len(pop); otherwise returns k distinct-position members in random
order.  The advice list chooses the positions; invalid advice falls back
to the first k positions (still a legitimate without-replacement
sample), so success depends only on k ≤ len(pop), as in Python. -/
def pySample (pop : List Organism) (k : ℕ) (advice : List ℕ) :
    Option (List Organism) :=
  if k ≤ pop.length then
    if advice.length = k ∧ advice.Nodup ∧ advice.all (· < pop.length)
    then some (advice.map (fun i => pop.getD i default))
    else some (pop.take k)
  else none

/-- The inner tournament() of select_parents (evolver.py lines 139-143):
sample 5 members, return the one with maximal fitness (first wins ties). -/
def tournament (pop : List Organism) (advice : List ℕ) : Option Organism := do
  let candidates ← pySample pop 5 advice
  pyMaxBy (fun o => o.fitness) candidates

/-- select_parents (evolver.py lines 137-148): two tournaments. -/
def select_parents (pop : List Organism) (a1 a2 : List ℕ) :
    Option (Organism × Organism) := do
  let p1 ← tournament pop a1
  let p2 ← tournament pop a2
  pure (p1, p2)

/-- The explicit field-by-field copy of a Gene performed at evolver.py
lines 162-168. -/
def copyGene (g : Gene) : Gene :=
  { name := g.name, value := g.value, min_value := g.min_value,
    max_value := g.max_value, mutation_rate := g.mutation_rate }

/-- The gene loop of crossover (evolver.py lines 154-168): for each
index i < len(parent1.genes), a coin (random.random() < 0.5) picks
parent1's or parent2's gene i; indexing parent2 out of range raises
(none).  The fuel argument counts the remaining iterations. -/
def crossGenes (coin : ℕ → ℚ) (p1g p2g : List Gene) :
    ℕ → ℕ → Option (List Gene)
  | 0, _ => some []
  | n+1, i => do
    let g ← if coin i < 1/2 then p1g.get? i else p2g.get? i
    let rest ← crossGenes coin p1g p2g n (i+1)
    pure (copyGene g :: rest)

/-- crossover (evolver.py lines 150-176): uniform crossover over
parent1's gene positions; the offspring carries the constant id
gen{g}_offspring (g = the engine's current generation counter), default
fitness 0.0, and generation = the engine's current counter. -/
def crossover (e : EvolutionEngine) (coin : ℕ → ℚ) (p1 p2 : Organism) :
    Option Organism := do
  let genes ← crossGenes coin p1.genes p2.genes p1.genes.length 0
  pure { strategy_id := "gen" ++ toString e.generation ++ "_offspring",
         genes := genes, fitness := 0, generation := e.generation }

/-- mutate (evolver.py lines 178-187): per gene, a coin
(random.random() < self.mutation_rate — the ENGINE's rate) decides
whether to multiply the value by (1 + noise) with
noise = np.random.normal(0, 0.1), then clamp into its bounds. -/
def mutate (e : EvolutionEngine) (coin noise : ℕ → ℚ) (o : Organism) :
    Organism :=
  { o with genes := (enumF 0 o.genes).map (fun p =>
      if coin p.1 < e.mutation_rate then
        let g := p.2
        { g with value := clamp g.min_value g.max_value (g.value * (1 + noise p.1)) }
      else p.2) }

/-- Modelled from the spec (§4.5): mutation gated by each gene's own
mutationRate instead of the engine's global rate; used to compare the
spec's wording against the source's mutate. -/
def mutate_spec (coin noise : ℕ → ℚ) (o : Organism) : Organism :=
  { o with genes := (enumF 0 o.genes).map (fun p =>
      if coin p.1 < p.2.mutation_rate then
        let g := p.2
        { g with value := clamp g.min_value g.max_value (g.value * (1 + noise p.1)) }
      else p.2) }

/-- All the random draws one evolve_generation call may consume:
mf i       — random.uniform(0.8, 1.2) for the i-th evaluation;
advice1/2 j — the sample positions of offspring j's two tournaments;
crossCoin j i — random.random() for offspring j, gene i, in crossover;
mutCoin j i / mutNoise j i — random.random() and np.random.normal(0,0.1)
for offspring j, gene i, in mutate. -/
structure EvolveOracle where
  mf : ℕ → ℚ
  advice1 : ℕ → List ℕ
  advice2 : ℕ → List ℕ
  crossCoin : ℕ → ℕ → ℚ
  mutCoin : ℕ → ℕ → ℚ
  mutNoise : ℕ → ℕ → ℚ

/-- The fitness-evaluation loop of evolve_generation (evolver.py lines
192-193): evaluates members in order; an exception aborts the loop. -/
def evalPop (mf : ℕ → ℚ) : ℕ → List Organism → Option (List Organism)
  | _, [] => some []
  | i, org :: rest => do
    let org1 ← evaluate_fitness org (mf i)
    let rest1 ← evalPop mf (i+1) rest
    pure (org1 :: rest1)

/-- self.population.sort(key=lambda x: x.fitness, reverse=True)
(evolver.py line 196): a stable sort, descending by fitness. -/
def sortByFitnessDesc (l : List Organism) : List Organism :=
  l.mergeSort (fun a b => decide (b.fitness ≤ a.fitness))

/-- The offspring while-loop of evolve_generation (evolver.py lines
203-207): produce n offspring, each from two tournament selections over
the (sorted, evaluated) old population, crossover and mutation.  j is
the offspring index used to address the oracle. -/
def genOffspring (e : EvolutionEngine) (o : EvolveOracle)
    (pool : List Organism) : ℕ → ℕ → Option (List Organism)
  | 0, _ => some []
  | n+1, j => do
    let parents ← select_parents pool (o.advice1 j) (o.advice2 j)
    let off ← crossover e (o.crossCoin j) parents.1 parents.2
    let offm := mutate e (o.mutCoin j) (o.mutNoise j) off
    let rest ← genOffspring e o pool n (j+1)
    pure (offm :: rest)

/-- evolve_generation (evolver.py lines 189-212): evaluate everyone,
sort descending by fitness, keep the top int(population_size * 0.1) as
elites, fill up to population_size with offspring, replace the
population and increment the generation counter. -/
def evolve_generation (e : EvolutionEngine) (o : EvolveOracle) :
    Option EvolutionEngine := do
  let evaluated ← evalPop o.mf 0 e.population
  let sorted := sortByFitnessDesc evaluated
  let elite_size := e.population_size / 10
  let elites := sorted.take elite_size
  let offspring ← genOffspring e o sorted (e.population_size - elites.length) 0
  pure { e with population := elites ++ offspring, generation := e.generation + 1 }

/-- The dict returned by get_best_strategy: the best organism's gene
name/value pairs plus its fitness and generation. -/
structure BestRecord where
  gene_values : List (String × ℚ)
  fitness : ℚ
  generation : ℕ
deriving DecidableEq, Repr

/-- get_best_strategy (evolver.py lines 214-225): max over the
population by fitness (raises on an empty population, modelled as
none), packaged into a record.  The engine is returned unchanged to
express that the method reads but never writes optimizer state. -/
def get_best_strategy (e : EvolutionEngine) :
    Option (BestRecord × EvolutionEngine) := do
  let best ← pyMaxBy (fun o => o.fitness) e.population
  let rec1 : BestRecord := { gene_values := best.genes.map (fun g => (g.name, g.value)), fitness := best.fitness, generation := best.generation }
  pure (rec1, e)

/-- The fitness the engine itself reports for a generation: evolver.py
line 212 logs self.population[0].fitness right after the replacement,
i.e. the head of the new population. -/
def bestFitness (e : EvolutionEngine) : ℚ :=
  (e.population.headD default).fitness

end Aether

-- Rational arithmetic and mergeSort are sealed for rewriting hygiene in
-- the library; computation on concrete runs below needs them to unfold.
attribute [local semireducible] Rat.mul Rat.add Rat.inv Rat.sub Rat.ofScientific List.merge List.mergeSort

namespace Aether

instance : Inhabited Gene := ⟨⟨"", 0, 0, 0, 0⟩⟩

/-- A genome with no genes: a legal Organism value (genes is just a
list), on which evaluate_fitness uses all dict defaults. -/
def org0 : Organism :=
  { strategy_id := "o", genes := [], fitness := 0, generation := 0 }

/-- A 10-member population of empty genomes: population_size 10 gives
elite_size int(10 * 0.1) = 1, so elitism is active. -/
def E1c : EvolutionEngine :=
  { population_size := 10, mutation_rate := 1/10,
    population := List.replicate 10 org0, generation := 0 }

/-- A concrete random trace: market factor 6/5 (inside uniform(0.8,1.2)),
tournament samples at positions 0..4, crossover coins 0, mutation coins
1/2 (inside random()'s [0,1), and not < 0.1, so no gene mutates),
Gaussian draws 0. -/
def O1c : EvolveOracle :=
  { mf := fun _ => 6/5, advice1 := fun _ => [0,1,2,3,4],
    advice2 := fun _ => [0,1,2,3,4], crossCoin := fun _ _ => 0,
    mutCoin := fun _ _ => 1/2, mutNoise := fun _ _ => 0 }

/-- The same trace with market factor 4/5 (also inside uniform(0.8,1.2)). -/
def O2c : EvolveOracle :=
  { O1c with mf := fun _ => 4/5 }

/-- A genome whose stop_loss gene value is 0 and inside its bounds: on
it the fitness formula's division 1 / (stop_loss * 10) raises
ZeroDivisionError in Python, i.e. the evaluator fails. -/
def orgBad : Organism :=
  { strategy_id := "b",
    genes := [ { name := "stop_loss", value := 0, min_value := -1, max_value := 1 } ],
    fitness := 0, generation := 0 }

/-- A full-size population in which every evaluation fails. -/
def E4c : EvolutionEngine :=
  { population_size := 5, mutation_rate := 1/10,
    population := List.replicate 5 orgBad, generation := 0 }

/-- A trace with market factor 1 (inside uniform(0.8,1.2)) and the same
remaining draws as O1c. -/
def O4c : EvolveOracle :=
  { O1c with mf := fun _ => 1 }

/-- An engine built with population_size 3 (tournament size 5 > 3) and
then initialized: construction and initialization both succeed. -/
def E8c : EvolutionEngine :=
  initialize_population (mkEngine 3 (1/10)) (fun _ => none) (fun _ _ => 0)

/-- A gene whose own mutation_rate is 0 (per the spec it would never
mutate), inside an engine whose global rate is 1. -/
def g5c : Gene :=
  { name := "g", value := 1, min_value := 0, max_value := 2, mutation_rate := 0 }

def o5c : Organism :=
  { strategy_id := "x", genes := [g5c], fitness := 0, generation := 0 }

def E5c : EvolutionEngine :=
  { population_size := 1, mutation_rate := 1, population := [o5c], generation := 0 }

def p6a : Organism :=
  { strategy_id := "a", genes := [], fitness := 1, generation := 0 }

def p6b : Organism :=
  { strategy_id := "b", genes := [], fitness := 2, generation := 0 }

def p6c : Organism :=
  { strategy_id := "c", genes := [], fitness := 3, generation := 0 }

def p6d : Organism :=
  { strategy_id := "d", genes := [], fitness := 4, generation := 0 }

def E6c : EvolutionEngine :=
  mkEngine 10 (1/10)

/-!  Helper lemmas about the embedding. -/

theorem le_clamp (lo hi v : ℚ) : lo ≤ clamp lo hi v :=
  le_max_left _ _

theorem clamp_le (lo hi v : ℚ) (h : lo ≤ hi) : clamp lo hi v ≤ hi :=
  max_le h (min_le_left _ _)

theorem enumF_length (l : List α) : ∀ i, (enumF i l).length = l.length := by
  induction l with
  | nil => intro i; rfl
  | cons x xs ih => intro i; simp [enumF, ih]

theorem snd_mem_of_mem_enumF (l : List α) :
    ∀ i p, p ∈ enumF i l → p.2 ∈ l := by
  induction l with
  | nil => intro i p h; simp [enumF] at h
  | cons x xs ih =>
    intro i p h
    rcases (by simpa [enumF] using h : p = (i, x) ∨ p ∈ enumF (i+1) xs) with h1 | h2
    · subst h1; simp
    · exact List.mem_cons_of_mem _ (ih (i+1) p h2)

end Aether

namespace Aether

theorem foldl_pyMax_spec (f : α → ℚ) :
    ∀ (xs : List α) (acc : α),
      (xs.foldl (fun a y => if f a < f y then y else a) acc = acc ∧
        ∀ y ∈ xs, f y ≤ f acc) ∨
      (∃ i : Fin xs.length,
        xs.foldl (fun a y => if f a < f y then y else a) acc = xs.get i ∧
        f acc < f (xs.get i) ∧
        (∀ y ∈ xs, f y ≤ f (xs.get i)) ∧
        (∀ j : Fin xs.length, j.val < i.val → f (xs.get j) < f (xs.get i))) := by
  intro xs
  induction xs with
  | nil =>
    intro acc
    left
    exact ⟨rfl, by simp⟩
  | cons x xs ih =>
    intro acc
    by_cases hx : f acc < f x
    · have hstep : (x :: xs).foldl (fun a y => if f a < f y then y else a) acc
          = xs.foldl (fun a y => if f a < f y then y else a) x := by
        simp [hx]
      rcases ih x with ⟨heq, hle⟩ | ⟨i, heq, hlt, hall, hfirst⟩
      · right
        refine ⟨⟨0, by simp⟩, (hstep.trans heq).trans rfl, hx, ?_, ?_⟩
        · intro y hy
          rcases List.mem_cons.mp hy with h1 | h2
          · subst h1; exact le_refl _
          · exact hle y h2
        · intro j hj
          exact absurd hj (by simp)
      · right
        refine ⟨⟨i.val + 1, Nat.succ_lt_succ i.isLt⟩, (hstep.trans heq).trans rfl, lt_trans hx hlt, ?_, ?_⟩
        · intro y hy
          rcases List.mem_cons.mp hy with h1 | h2
          · subst h1; exact le_of_lt hlt
          · exact hall y h2
        · intro j hj
          rcases j with ⟨jv, hjv⟩
          cases jv with
          | zero => exact hlt
          | succ jv =>
            exact hfirst ⟨jv, Nat.lt_of_succ_lt_succ hjv⟩ (Nat.lt_of_succ_lt_succ hj)
    · have hstep : (x :: xs).foldl (fun a y => if f a < f y then y else a) acc
          = xs.foldl (fun a y => if f a < f y then y else a) acc := by
        simp [hx]
      have hxle : f x ≤ f acc := not_lt.mp hx
      rcases ih acc with ⟨heq, hle⟩ | ⟨i, heq, hlt, hall, hfirst⟩
      · left
        refine ⟨hstep.trans heq, ?_⟩
        intro y hy
        rcases List.mem_cons.mp hy with h1 | h2
        · subst h1; exact hxle
        · exact hle y h2
      · right
        refine ⟨⟨i.val + 1, Nat.succ_lt_succ i.isLt⟩, (hstep.trans heq).trans rfl, hlt, ?_, ?_⟩
        · intro y hy
          rcases List.mem_cons.mp hy with h1 | h2
          · subst h1; exact le_of_lt (lt_of_le_of_lt hxle hlt)
          · exact hall y h2
        · intro j hj
          rcases j with ⟨jv, hjv⟩
          cases jv with
          | zero => exact lt_of_le_of_lt hxle hlt
          | succ jv =>
            exact hfirst ⟨jv, Nat.lt_of_succ_lt_succ hjv⟩ (Nat.lt_of_succ_lt_succ hj)

theorem pyMaxBy_spec (f : α → ℚ) (l : List α) (w : α)
    (h : pyMaxBy f l = some w) :
    ∃ i : Fin l.length, w = l.get i ∧ (∀ y ∈ l, f y ≤ f w) ∧
      ∀ j : Fin l.length, j.val < i.val → f (l.get j) < f w := by
  match l with
  | [] => simp [pyMaxBy] at h
  | x :: xs =>
    have hw : w = xs.foldl (fun a y => if f a < f y then y else a) x := by
      simpa [pyMaxBy] using h.symm
    rcases foldl_pyMax_spec f xs x with ⟨heq, hle⟩ | ⟨i, heq, hlt, hall, hfirst⟩
    · refine ⟨⟨0, by simp⟩, (hw.trans heq).trans rfl, ?_, ?_⟩
      · intro y hy
        rcases List.mem_cons.mp hy with h1 | h2
        · subst h1; rw [hw, heq]
        · rw [hw, heq]; exact hle y h2
      · intro j hj
        exact absurd hj (by simp)
    · refine ⟨⟨i.val + 1, Nat.succ_lt_succ i.isLt⟩, (hw.trans heq).trans rfl, ?_, ?_⟩
      · intro y hy
        rw [hw, heq]
        rcases List.mem_cons.mp hy with h1 | h2
        · subst h1; exact le_of_lt hlt
        · exact hall y h2
      · intro j hj
        rw [hw, heq]
        rcases j with ⟨jv, hjv⟩
        cases jv with
        | zero => exact hlt
        | succ jv =>
          exact hfirst ⟨jv, Nat.lt_of_succ_lt_succ hjv⟩ (Nat.lt_of_succ_lt_succ hj)

theorem pyMaxBy_isSome_iff (f : α → ℚ) (l : List α) :
    (pyMaxBy f l).isSome ↔ l ≠ [] := by
  cases l <;> simp [pyMaxBy]

theorem pyMaxBy_mem (f : α → ℚ) (l : List α) (w : α)
    (h : pyMaxBy f l = some w) : w ∈ l := by
  obtain ⟨i, hi, -, -⟩ := pyMaxBy_spec f l w h
  rw [hi]
  exact List.get_mem l i.val i.isLt

end Aether

namespace Aether

theorem copyGene_eq (g : Gene) : copyGene g = g := rfl

theorem evalPop_length (mf : ℕ → ℚ) :
    ∀ (i : ℕ) (l l' : List Organism), evalPop mf i l = some l' →
      l'.length = l.length := by
  intro i l
  induction l generalizing i with
  | nil =>
    intro l' h
    simp [evalPop] at h
    subst h
    rfl
  | cons x xs ih =>
    intro l' h
    rcases (by simpa [evalPop, Option.bind_eq_some] using h :
      ∃ a, evaluate_fitness x (mf i) = some a ∧
        ∃ b, evalPop mf (i+1) xs = some b ∧ a :: b = l') with ⟨a, _, b, hb, hl'⟩
    subst hl'
    simp [ih (i+1) b hb]

theorem evalPop_get (mf : ℕ → ℚ) :
    ∀ (i : ℕ) (l l' : List Organism), evalPop mf i l = some l' →
      ∀ (j : ℕ) (hj : j < l.length) (hj' : j < l'.length),
      evaluate_fitness (l.get ⟨j, hj⟩) (mf (i+j)) = some (l'.get ⟨j, hj'⟩) := by
  intro i l
  induction l generalizing i with
  | nil =>
    intro l' h j hj hj'
    exact absurd hj (by simp)
  | cons x xs ih =>
    intro l' h j hj hj'
    rcases (by simpa [evalPop, Option.bind_eq_some] using h :
      ∃ a, evaluate_fitness x (mf i) = some a ∧
        ∃ b, evalPop mf (i+1) xs = some b ∧ a :: b = l') with ⟨a, ha, b, hb, hl'⟩
    subst hl'
    cases j with
    | zero => simpa using ha
    | succ j =>
      have h2 : i + (j+1) = (i+1) + j := by omega
      rw [h2]
      exact ih (i+1) b hb j (Nat.lt_of_succ_lt_succ hj) (Nat.lt_of_succ_lt_succ hj')

theorem evalPop_none (mf : ℕ → ℚ) :
    ∀ (i : ℕ) (l : List Organism) (j : ℕ) (hj : j < l.length),
      evaluate_fitness (l.get ⟨j, hj⟩) (mf (i+j)) = none →
      evalPop mf i l = none := by
  intro i l
  induction l generalizing i with
  | nil =>
    intro j hj hnone
    exact absurd hj (by simp)
  | cons x xs ih =>
    intro j hj hnone
    cases j with
    | zero =>
      have hx : evaluate_fitness x (mf i) = none := by simpa using hnone
      simp [evalPop, hx]
    | succ j =>
      cases heval : evaluate_fitness x (mf i) with
      | none => simp [evalPop, heval]
      | some a =>
        have h2 : i + (j+1) = (i+1) + j := by omega
        rw [h2] at hnone
        have hrec := ih (i+1) j (Nat.lt_of_succ_lt_succ hj) hnone
        simp [evalPop, heval, hrec]

theorem evalPop_isSome (mf : ℕ → ℚ) :
    ∀ (i : ℕ) (l : List Organism),
      (∀ org ∈ l, ∀ c, (evaluate_fitness org c).isSome) →
      (evalPop mf i l).isSome := by
  intro i l
  induction l generalizing i with
  | nil =>
    intro h
    simp [evalPop]
  | cons x xs ih =>
    intro h
    obtain ⟨a, ha⟩ := Option.isSome_iff_exists.mp (h x (List.mem_cons_self x xs) (mf i))
    obtain ⟨b, hb⟩ := Option.isSome_iff_exists.mp
      (ih (i+1) (fun org hm c => h org (List.mem_cons_of_mem _ hm) c))
    simp [evalPop, ha, hb]

theorem sortByFitnessDesc_perm (l : List Organism) :
    List.Perm (sortByFitnessDesc l) l :=
  List.mergeSort_perm l _

theorem sortByFitnessDesc_length (l : List Organism) :
    (sortByFitnessDesc l).length = l.length :=
  List.length_mergeSort l

theorem sortByFitnessDesc_pairwise (l : List Organism) :
    (sortByFitnessDesc l).Pairwise (fun a b => b.fitness ≤ a.fitness) := by
  have h := @List.sorted_mergeSort Organism
    (fun a b => decide (b.fitness ≤ a.fitness))
    (fun a b c h1 h2 => by
      simp only [decide_eq_true_eq] at h1 h2 ⊢
      exact le_trans h2 h1)
    (fun a b => by
      simp only [Bool.or_eq_true, decide_eq_true_eq]
      exact le_total b.fitness a.fitness)
    l
  exact h.imp (fun hab => by simpa using hab)

theorem sortByFitnessDesc_head_ge (l : List Organism) (y : Organism)
    (hy : y ∈ l) :
    y.fitness ≤ ((sortByFitnessDesc l).headD default).fitness := by
  have hmem : y ∈ sortByFitnessDesc l := ((sortByFitnessDesc_perm l).symm).subset hy
  have hp := sortByFitnessDesc_pairwise l
  cases hs : sortByFitnessDesc l with
  | nil =>
    rw [hs] at hmem
    simp at hmem
  | cons hd tl =>
    rw [hs] at hmem hp
    rcases List.mem_cons.mp hmem with h1 | h2
    · subst h1
      simp
    · simpa using (List.pairwise_cons.mp hp).1 y h2

theorem genOffspring_length (e : EvolutionEngine) (o : EvolveOracle)
    (pool : List Organism) :
    ∀ (n j : ℕ) (l : List Organism), genOffspring e o pool n j = some l →
      l.length = n := by
  intro n
  induction n with
  | zero =>
    intro j l h
    simp [genOffspring] at h
    subst h
    rfl
  | succ n ih =>
    intro j l h
    rcases (by simpa [genOffspring, Option.bind_eq_some] using h :
      ∃ ps, select_parents pool (o.advice1 j) (o.advice2 j) = some ps ∧
        ∃ off, crossover e (o.crossCoin j) ps.1 ps.2 = some off ∧
          ∃ rest, genOffspring e o pool n (j+1) = some rest ∧
            mutate e (o.mutCoin j) (o.mutNoise j) off :: rest = l)
      with ⟨ps, _, off, _, rest, hrest, hl⟩
    subst hl
    simp [ih (j+1) rest hrest]

theorem genOffspring_pool_short (e : EvolutionEngine) (o : EvolveOracle)
    (pool : List Organism) (h5 : pool.length < 5) :
    ∀ (n j : ℕ), n ≠ 0 → genOffspring e o pool n j = none := by
  intro n j hn
  cases n with
  | zero => exact absurd rfl hn
  | succ n =>
    have hle : ¬ (5 ≤ pool.length) := by omega
    simp [genOffspring, select_parents, tournament, pySample, hle]

end Aether

namespace Aether

theorem evaluate_fitness_fields (o o' : Organism) (c : ℚ)
    (h : evaluate_fitness o c = some o') :
    o'.genes = o.genes ∧ o'.strategy_id = o.strategy_id ∧
      o'.generation = o.generation := by
  simp only [evaluate_fitness] at h
  split at h
  · exact absurd h (by simp)
  · split at h
    · exact absurd h (by simp)
    · rw [← Option.some.inj h]
      exact ⟨rfl, rfl, rfl⟩

theorem evaluate_fitness_idem (o o' : Organism) (c : ℚ)
    (h : evaluate_fitness o c = some o') :
    evaluate_fitness o' c = some o' := by
  simp only [evaluate_fitness] at h
  split at h
  · exact absurd h (by simp)
  · next h1 =>
    split at h
    · exact absurd h (by simp)
    · next h2 =>
      rw [← Option.some.inj h]
      simp only [evaluate_fitness]
      rw [if_neg h1, if_neg h2]

theorem crossGenes_mem (coin : ℕ → ℚ) (p1g p2g : List Gene) :
    ∀ (n i : ℕ) (gs : List Gene), crossGenes coin p1g p2g n i = some gs →
      ∀ g ∈ gs, g ∈ p1g ∨ g ∈ p2g := by
  intro n
  induction n with
  | zero =>
    intro i gs h
    simp [crossGenes] at h
    subst h
    intro g hg
    simp at hg
  | succ n ih =>
    intro i gs h g hg
    simp only [crossGenes] at h
    by_cases hc : coin i < 1/2
    · rw [if_pos hc] at h
      simp [Option.bind_eq_some] at h
      obtain ⟨g0, hg0, rest, hrest, hgs⟩ := h
      subst hgs
      rcases List.mem_cons.mp hg with h1 | h2
      · subst h1
        rw [copyGene_eq]
        exact Or.inl (List.getElem?_mem hg0)
      · exact ih (i+1) rest hrest g h2
    · rw [if_neg hc] at h
      simp [Option.bind_eq_some] at h
      obtain ⟨g0, hg0, rest, hrest, hgs⟩ := h
      subst hgs
      rcases List.mem_cons.mp hg with h1 | h2
      · subst h1
        rw [copyGene_eq]
        exact Or.inr (List.getElem?_mem hg0)
      · exact ih (i+1) rest hrest g h2

theorem crossover_fields (e : EvolutionEngine) (coin : ℕ → ℚ)
    (p1 p2 off : Organism) (h : crossover e coin p1 p2 = some off) :
    off.generation = e.generation ∧
      off.strategy_id = "gen" ++ toString e.generation ++ "_offspring" ∧
      off.fitness = 0 ∧
      ∀ g ∈ off.genes, g ∈ p1.genes ∨ g ∈ p2.genes := by
  rcases (by simpa [crossover, Option.bind_eq_some] using h :
    ∃ gs, crossGenes coin p1.genes p2.genes p1.genes.length 0 = some gs ∧
      ({ strategy_id := "gen" ++ toString e.generation ++ "_offspring",
         genes := gs, fitness := 0, generation := e.generation : Organism }) = off)
    with ⟨gs, hgs, hoff⟩
  subst hoff
  exact ⟨rfl, rfl, rfl, crossGenes_mem coin p1.genes p2.genes _ 0 gs hgs⟩

theorem mutate_genes_chars (e : EvolutionEngine) (coin noise : ℕ → ℚ)
    (o : Organism) :
    ∀ g' ∈ (mutate e coin noise o).genes, ∃ p : ℕ × Gene, p.2 ∈ o.genes ∧
      (g' = p.2 ∨
        g' = { p.2 with value := clamp p.2.min_value p.2.max_value (p.2.value * (1 + noise p.1)) }) := by
  intro g' hg'
  simp only [mutate, List.mem_map] at hg'
  obtain ⟨p, hp, hg⟩ := hg'
  refine ⟨p, snd_mem_of_mem_enumF o.genes 0 p hp, ?_⟩
  by_cases hc : coin p.1 < e.mutation_rate
  · right
    rw [if_pos hc] at hg
    exact hg.symm
  · left
    rw [if_neg hc] at hg
    exact hg.symm

theorem pySample_elim (pop : List Organism) (advice : List ℕ)
    (s : List Organism) (h : pySample pop 5 advice = some s) :
    5 ≤ pop.length ∧ ∃ idx : List ℕ, idx.Nodup ∧ idx.length = 5 ∧
      (∀ k ∈ idx, k < pop.length) ∧
      s = idx.map (fun k => pop.getD k default) := by
  unfold pySample at h
  by_cases h5 : 5 ≤ pop.length
  · rw [if_pos h5] at h
    refine ⟨h5, ?_⟩
    by_cases hv : advice.length = 5 ∧ advice.Nodup ∧ advice.all (· < pop.length)
    · rw [if_pos hv] at h
      refine ⟨advice, hv.2.1, hv.1, ?_, (Option.some.inj h).symm⟩
      intro k hk
      simpa using (List.all_eq_true.mp hv.2.2) k hk
    · rw [if_neg hv] at h
      refine ⟨List.range 5, List.nodup_range 5, rfl, ?_, ?_⟩
      · intro k hk
        exact lt_of_lt_of_le (List.mem_range.mp hk) h5
      · rw [← Option.some.inj h]
        apply List.ext_get
        · simp [Nat.min_eq_left h5]
        · intro n h1 h2
          have hn : n < 5 := by
            simpa [Nat.min_eq_left h5] using h1
          have hn' : n < pop.length := lt_of_lt_of_le hn h5
          simp [List.get_eq_getElem, List.getElem_take, List.getElem_map,
            List.getElem_range, List.getD_eq_getElem?_getD,
            List.getElem?_eq_getElem hn']
  · rw [if_neg h5] at h
    exact absurd h (by simp)

end Aether

namespace Aether

theorem evolve_generation_elim (e : EvolutionEngine) (o : EvolveOracle)
    (e' : EvolutionEngine) (h : evolve_generation e o = some e') :
    ∃ ev off, evalPop o.mf 0 e.population = some ev ∧
      genOffspring e o (sortByFitnessDesc ev)
        (e.population_size -
          ((sortByFitnessDesc ev).take (e.population_size / 10)).length) 0 = some off ∧
      e'.population = (sortByFitnessDesc ev).take (e.population_size / 10) ++ off ∧
      e'.population_size = e.population_size ∧
      e'.mutation_rate = e.mutation_rate ∧
      e'.generation = e.generation + 1 := by
  rcases (by simpa [evolve_generation, Option.bind_eq_some] using h :
    ∃ ev, evalPop o.mf 0 e.population = some ev ∧
      ∃ off, genOffspring e o (sortByFitnessDesc ev)
          (e.population_size -
            ((sortByFitnessDesc ev).take (e.population_size / 10)).length) 0 = some off ∧
        ({ e with population := (sortByFitnessDesc ev).take (e.population_size / 10) ++ off, generation := e.generation + 1 }) = e')
    with ⟨ev, hev, off, hoff, he'⟩
  subst he'
  exact ⟨ev, off, hev, hoff, rfl, rfl, rfl, rfl⟩

/-- C3: for every initialized population the member count equals
population_size, and every completed evolve_generation call replaces the
population with exactly population_size members (elites plus offspring)
and increments the generation counter by exactly 1. -/
theorem C3_population_size_invariant :
    (∀ (e : EvolutionEngine) (strat : String → Option ℚ) (u : ℕ → ℕ → ℚ),
      (initialize_population e strat u).population.length = e.population_size) ∧
    (∀ (e : EvolutionEngine) (o : EvolveOracle) (e' : EvolutionEngine),
      evolve_generation e o = some e' →
      e'.population.length = e.population_size ∧
      e'.population_size = e.population_size ∧
      e'.generation = e.generation + 1) := by
  constructor
  · intro e strat u
    simp [initialize_population]
  · intro e o e' h
    obtain ⟨ev, off, hev, hoff, hpop, hps, hmut, hgen⟩ :=
      evolve_generation_elim e o e' h
    refine ⟨?_, hps, hgen⟩
    rw [hpop, List.length_append, genOffspring_length e o _ _ 0 off hoff]
    have hle : ((sortByFitnessDesc ev).take (e.population_size / 10)).length
        ≤ e.population_size := by
      rw [List.length_take]
      exact le_trans (min_le_left _ _) (Nat.div_le_self _ _)
    omega

/-- C3 witness: a concrete initialization (population_size 3) and a
concrete completed evolve_generation call (population_size 10) realizing
the invariant. -/
theorem C3_population_size_invariant_witness :
    (initialize_population (mkEngine 3 (1/10)) (fun _ => none) (fun _ _ => 0)).population.length = 3 ∧
    (evolve_generation E1c O1c).map
      (fun e => (e.population.length, e.population_size, e.generation)) = some (10, 10, 1) := by
  constructor
  · exact C3_population_size_invariant.1 (mkEngine 3 (1/10)) (fun _ => none) (fun _ _ => 0)
  · cases hev : evolve_generation E1c O1c with
    | none => exact absurd hev (by decide)
    | some e' =>
      obtain ⟨h1, h2, h3⟩ := C3_population_size_invariant.2 E1c O1c e' hev
      simp [h1, h2, h3, E1c]

/-- C2: the bounds invariant min_value ≤ value ≤ max_value holds for
every gene of every organism produced by initialize_population, is
preserved by crossover (genes are copied verbatim from parents), and is
preserved by mutate (perturbed values are clamped back into bounds);
enforcement is by clamping, never by rejecting a genome. -/
theorem C2_bounds_invariant :
    (∀ (e : EvolutionEngine) (strat : String → Option ℚ) (u : ℕ → ℕ → ℚ),
      ∀ org ∈ (initialize_population e strat u).population, ∀ g ∈ org.genes,
        g.min_value ≤ g.value ∧ g.value ≤ g.max_value) ∧
    (∀ (e : EvolutionEngine) (coin : ℕ → ℚ) (p1 p2 off : Organism),
      crossover e coin p1 p2 = some off →
      (∀ g ∈ p1.genes, g.min_value ≤ g.value ∧ g.value ≤ g.max_value) →
      (∀ g ∈ p2.genes, g.min_value ≤ g.value ∧ g.value ≤ g.max_value) →
      ∀ g ∈ off.genes, g.min_value ≤ g.value ∧ g.value ≤ g.max_value) ∧
    (∀ (e : EvolutionEngine) (coin noise : ℕ → ℚ) (o : Organism),
      (∀ g ∈ o.genes, g.min_value ≤ g.value ∧ g.value ≤ g.max_value) →
      ∀ g ∈ (mutate e coin noise o).genes,
        g.min_value ≤ g.value ∧ g.value ≤ g.max_value) := by
  refine ⟨?_, ?_, ?_⟩
  · intro e strat u org horg g hg
    simp only [initialize_population, List.mem_map] at horg
    obtain ⟨i, hi, horg⟩ := horg
    subst horg
    simp only [extract_gene_definitions, enumF, List.map_cons, List.map_nil,
      List.mem_cons, List.not_mem_nil, or_false] at hg
    rcases hg with rfl | rfl | rfl | rfl | rfl | rfl <;>
      exact ⟨le_clamp _ _ _, clamp_le _ _ _ (by norm_num)⟩
  · intro e coin p1 p2 off hoff h1 h2 g hg
    rcases (crossover_fields e coin p1 p2 off hoff).2.2.2 g hg with hm | hm
    · exact h1 g hm
    · exact h2 g hm
  · intro e coin noise o ho g' hg'
    obtain ⟨p, hp, hcase⟩ := mutate_genes_chars e coin noise o g' hg'
    rcases hcase with rfl | rfl
    · exact ho p.2 hp
    · obtain ⟨hlo, hhi⟩ := ho p.2 hp
      exact ⟨le_clamp _ _ _, clamp_le _ _ _ (le_trans hlo hhi)⟩

/-- C2 witness: concrete instances of the three parts — an initialized
organism, a crossover offspring, and a mutated organism, all with every
gene inside its bounds. -/
theorem C2_bounds_invariant_witness :
    (∀ g ∈ ((initialize_population (mkEngine 2 (1/10)) (fun _ => none) (fun _ _ => 1)).population.headD default).genes,
      g.min_value ≤ g.value ∧ g.value ≤ g.max_value) ∧
    (∀ g ∈ ((crossover E6c (fun _ => 0) o5c o5c).getD default).genes,
      g.min_value ≤ g.value ∧ g.value ≤ g.max_value) ∧
    (∀ g ∈ (mutate E5c (fun _ => 0) (fun _ => 100) o5c).genes,
      g.min_value ≤ g.value ∧ g.value ≤ g.max_value) := by
  refine ⟨?_, ?_, ?_⟩
  · intro g hg
    exact C2_bounds_invariant.1 (mkEngine 2 (1/10)) (fun _ => none) (fun _ _ => 1)
      _ (by decide) g hg
  · cases hc : crossover E6c (fun _ => 0) o5c o5c with
    | none => exact absurd hc (by decide)
    | some off =>
      intro g hg
      rw [Option.getD_some] at hg
      exact C2_bounds_invariant.2.1 E6c (fun _ => 0) o5c o5c off hc
        (by decide) (by decide) g hg
  · intro g hg
    exact C2_bounds_invariant.2.2 E5c (fun _ => 0) (fun _ => 100) o5c (by decide) g hg

end Aether

namespace Aether

/-- C4 (counterexample): a population on which every fitness evaluation
raises (stop_loss gene value 0 makes 1/(stop_loss*10) divide by zero):
evolve_generation does not complete with a new population of
population_size members — the error propagates and the call fails. -/
theorem C4_error_handling_counterexample :
    (∀ org ∈ E4c.population, evaluate_fitness org (O4c.mf 0) = none) ∧
    evolve_generation E4c O4c = none := by decide

/-- C4 (amended): evaluate_fitness performs no error handling; if the
evaluation of any member fails, the exception propagates out of
evolve_generation, which produces no new population at all (fitness is
never coerced to -infinity). -/
theorem C4_error_handling_amended (e : EvolutionEngine) (o : EvolveOracle)
    (i : ℕ) (hi : i < e.population.length)
    (hfail : evaluate_fitness (e.population.get ⟨i, hi⟩) (o.mf i) = none) :
    evolve_generation e o = none := by
  have h0 : evalPop o.mf 0 e.population = none :=
    evalPop_none o.mf 0 e.population i hi (by simpa using hfail)
  simp [evolve_generation, h0]

/-- C4 witness: the amended theorem applied to a concrete failing
population and trace. -/
theorem C4_error_handling_witness : evolve_generation E4c O2c = none :=
  C4_error_handling_amended E4c O2c 0 (by decide) (by decide)

/-- C5 (counterexample): mutate gates each gene on the ENGINE's global
mutation_rate, not on the gene's own mutationRate: a gene whose own rate
is 0 (per the claim it would never mutate) is nevertheless perturbed
when the engine's rate is 1, diverging from the spec-modelled per-gene
mutation. -/
theorem C5_mutation_rate_counterexample :
    g5c.mutation_rate = 0 ∧ E5c.mutation_rate = 1 ∧
    ((mutate E5c (fun _ => 1/2) (fun _ => 1/10) o5c).genes.headD default).value = 11/10 ∧
    ((mutate_spec (fun _ => 1/2) (fun _ => 1/10) o5c).genes.headD default).value = 1 ∧
    mutate E5c (fun _ => 1/2) (fun _ => 1/10) o5c ≠
      mutate_spec (fun _ => 1/2) (fun _ => 1/10) o5c := by decide

/-- C5 (amended): mutate multiplies a selected gene's value by
(1 + noise) and clamps it into [min, max], but selection is gated by the
engine's global mutation_rate; it agrees with the spec's per-gene-rate
description exactly when every gene's mutationRate equals the engine's
rate. -/
theorem C5_mutation_rate_amended (e : EvolutionEngine) (coin noise : ℕ → ℚ)
    (o : Organism) (h : ∀ g ∈ o.genes, g.mutation_rate = e.mutation_rate) :
    mutate e coin noise o = mutate_spec coin noise o := by
  unfold mutate mutate_spec
  refine congrArg (fun gs => { o with genes := gs }) ?_
  refine List.map_congr_left ?_
  intro p hp
  rw [h p.2 (snd_mem_of_mem_enumF o.genes 0 p hp)]

/-- C5 witness: the amended theorem applied to a concrete organism whose
gene rate (the 0.1 default) coincides with the engine's rate. -/
theorem C5_mutation_rate_witness :
    mutate E4c (fun _ => 0) (fun _ => 1) orgBad =
      mutate_spec (fun _ => 0) (fun _ => 1) orgBad :=
  C5_mutation_rate_amended E4c (fun _ => 0) (fun _ => 1) orgBad (by decide)

/-- C6 (counterexample): the offspring is tagged with the engine's
CURRENT generation counter (not the parents' generation + 1), and its
id is the constant string gen{g}_offspring, shared by every offspring of
the step rather than newly assigned per genome. -/
theorem C6_offspring_tag_counterexample :
    p6a.generation = 0 ∧ p6b.generation = 0 ∧
    (crossover E6c (fun _ => 0) p6a p6b).map
      (fun o => (o.strategy_id, o.generation)) = some ("gen0_offspring", 0) ∧
    (crossover E6c (fun _ => 0) p6c p6d).map
      (fun o => o.strategy_id) = some "gen0_offspring" ∧
    (0 : ℕ) ≠ p6a.generation + 1 := by decide

/-- C6 (amended): every successful crossover offspring carries the
engine's current generation counter, the constant id gen{g}_offspring
(g = that counter), and the default fitness 0.0 (unevaluated). -/
theorem C6_offspring_tag_amended (e : EvolutionEngine) (coin : ℕ → ℚ)
    (p1 p2 off : Organism) (h : crossover e coin p1 p2 = some off) :
    off.generation = e.generation ∧
    off.strategy_id = "gen" ++ toString e.generation ++ "_offspring" ∧
    off.fitness = 0 :=
  ⟨(crossover_fields e coin p1 p2 off h).1,
   (crossover_fields e coin p1 p2 off h).2.1,
   (crossover_fields e coin p1 p2 off h).2.2.1⟩

/-- C6 witness: the amended theorem applied to a concrete crossover. -/
theorem C6_offspring_tag_witness :
    (crossover E6c (fun _ => 1) p6a p6b).map
      (fun o => (o.generation, o.strategy_id, o.fitness)) = some (0, "gen0_offspring", 0) := by
  cases hc : crossover E6c (fun _ => 1) p6a p6b with
  | none => exact absurd hc (by decide)
  | some off =>
    obtain ⟨h1, h2, h3⟩ := C6_offspring_tag_amended E6c (fun _ => 1) p6a p6b off hc
    have hf : (off.generation, off.strategy_id, off.fitness) =
        ((0 : ℕ), "gen0_offspring", (0 : ℚ)) := by
      rw [h1, h2, h3]
      decide
    simp [hf]

/-- C8 (counterexample): an engine constructed with population_size 3
(tournament size 5 > 3, an invalid configuration per the claim) is
accepted at construction, initializes fine, and then fails at runtime
inside the generational loop when select_parents samples 5 from 3. -/
theorem C8_validation_counterexample :
    (mkEngine 3 (1/10)).population_size = 3 ∧
    E8c.population.length = 3 ∧
    evolve_generation E8c O4c = none := by decide

/-- C8 (amended): the constructor performs no validation (it always
succeeds, merely storing its arguments), and a configuration whose
population is smaller than the tournament size 5 fails at runtime inside
evolve_generation (after a successful evaluation phase) rather than at
construction. -/
theorem C8_validation_amended :
    (∀ (ps : ℕ) (r : ℚ), mkEngine ps r =
      { population_size := ps, mutation_rate := r, population := [], generation := 0 }) ∧
    (∀ (e : EvolutionEngine) (o : EvolveOracle) (ev : List Organism),
      e.population.length < 5 → e.population_size ≠ 0 →
      evalPop o.mf 0 e.population = some ev →
      evolve_generation e o = none) := by
  constructor
  · intro ps r
    rfl
  · intro e o ev h5 hps hev
    have hsortlen : (sortByFitnessDesc ev).length < 5 := by
      rw [sortByFitnessDesc_length, evalPop_length o.mf 0 e.population ev hev]
      exact h5
    have hdiv : e.population_size / 10 < e.population_size :=
      Nat.div_lt_self (Nat.pos_of_ne_zero hps) (by norm_num)
    have hElite : ((sortByFitnessDesc ev).take (e.population_size / 10)).length
        ≤ e.population_size / 10 := by
      rw [List.length_take]
      exact min_le_left _ _
    have hn : e.population_size -
        ((sortByFitnessDesc ev).take (e.population_size / 10)).length ≠ 0 := by omega
    have hnone := genOffspring_pool_short e o (sortByFitnessDesc ev) hsortlen _ 0 hn
    simp only [List.length_take] at hnone
    simp [evolve_generation, hev, hnone]

/-- C8 witness: the amended theorem applied to the concrete
population_size-3 engine. -/
theorem C8_validation_witness : evolve_generation E8c O2c = none := by
  cases hev : evalPop O2c.mf 0 E8c.population with
  | none => exact absurd hev (by decide)
  | some ev => exact C8_validation_amended.2 E8c O2c ev (by decide) (by decide) hev

end Aether

namespace Aether

/-- An empty-genome organism with a given id and fitness, for exercising
selection. -/
def org7 (id : String) (f : ℚ) : Organism :=
  { strategy_id := id, genes := [], fitness := f, generation := 0 }

/-- A six-member population containing a fitness tie (B and C both 3)
ahead of the sample positions, to exercise first-encountered
tie-breaking. -/
def P7c : List Organism :=
  [org7 "A" 1, org7 "B" 3, org7 "C" 3, org7 "D" 2, org7 "E" 0, org7 "F" 9]

theorem pySample_some_of_le (pop : List Organism) (advice : List ℕ)
    (h5 : 5 ≤ pop.length) :
    ∃ s, pySample pop 5 advice = some s ∧ s.length = 5 := by
  unfold pySample
  rw [if_pos h5]
  by_cases hv : advice.length = 5 ∧ advice.Nodup ∧ advice.all (· < pop.length)
  · rw [if_pos hv]
    exact ⟨_, rfl, by simp [hv.1]⟩
  · rw [if_neg hv]
    exact ⟨_, rfl, by simp [List.length_take, Nat.min_eq_left h5]⟩

/-- C7: tournament selection samples 5 members at distinct positions of
the population (succeeding exactly when the population has at least 5
members) and returns the sampled genome with maximal fitness, ties
broken in favor of the genome encountered first in the sample. -/
theorem C7_tournament_selection (pop : List Organism) (advice : List ℕ) :
    ((tournament pop advice).isSome ↔ 5 ≤ pop.length) ∧
    (∀ w, tournament pop advice = some w →
      ∃ s : List Organism, pySample pop 5 advice = some s ∧
        (∃ idx : List ℕ, idx.Nodup ∧ idx.length = 5 ∧
          (∀ k ∈ idx, k < pop.length) ∧
          s = idx.map (fun k => pop.getD k default)) ∧
        (∃ i : Fin s.length, w = s.get i ∧
          (∀ y ∈ s, y.fitness ≤ w.fitness) ∧
          ∀ j : Fin s.length, j.val < i.val → (s.get j).fitness < w.fitness)) := by
  constructor
  · constructor
    · intro h
      obtain ⟨w, hw⟩ := Option.isSome_iff_exists.mp h
      rcases (by simpa [tournament, Option.bind_eq_some] using hw :
        ∃ s, pySample pop 5 advice = some s ∧
          pyMaxBy (fun o => o.fitness) s = some w) with ⟨s, hs, -⟩
      exact (pySample_elim pop advice s hs).1
    · intro h5
      obtain ⟨s, hs, hlen⟩ := pySample_some_of_le pop advice h5
      have hne : s ≠ [] := by
        intro hnil
        rw [hnil] at hlen
        simp at hlen
      obtain ⟨w, hw⟩ := Option.isSome_iff_exists.mp
        ((pyMaxBy_isSome_iff (fun o => o.fitness) s).mpr hne)
      simp [tournament, hs, hw]
  · intro w hw
    rcases (by simpa [tournament, Option.bind_eq_some] using hw :
      ∃ s, pySample pop 5 advice = some s ∧
        pyMaxBy (fun o => o.fitness) s = some w) with ⟨s, hs, hmax⟩
    obtain ⟨i, hi, hge, hfirst⟩ := pyMaxBy_spec (fun o => o.fitness) s w hmax
    refine ⟨s, hs, (pySample_elim pop advice s hs).2, i, hi, hge, ?_⟩
    intro j hj
    exact hfirst j hj

/-- C7 witness: the theorem applied to a concrete tournament in which
positions 1,2,3,4,0 are sampled: B and C tie at fitness 3 and the
first-encountered B wins. -/
theorem C7_tournament_selection_witness :
    tournament P7c [1, 2, 3, 4, 0] = some (org7 "B" 3) ∧
    (tournament P7c [1, 2, 3, 4, 0]).isSome ∧
    ∃ s : List Organism, pySample P7c 5 [1, 2, 3, 4, 0] = some s ∧
      (∃ idx : List ℕ, idx.Nodup ∧ idx.length = 5 ∧
        (∀ k ∈ idx, k < P7c.length) ∧
        s = idx.map (fun k => P7c.getD k default)) ∧
      (∃ i : Fin s.length, org7 "B" 3 = s.get i ∧
        (∀ y ∈ s, y.fitness ≤ (org7 "B" 3).fitness) ∧
        ∀ j : Fin s.length, j.val < i.val →
          (s.get j).fitness < (org7 "B" 3).fitness) := by
  refine ⟨by decide, ?_, ?_⟩
  · exact (C7_tournament_selection P7c [1, 2, 3, 4, 0]).1.mpr (by decide)
  · exact (C7_tournament_selection P7c [1, 2, 3, 4, 0]).2 (org7 "B" 3) (by decide)

/-- C9: get_best_strategy on a non-empty population is a pure read: it
returns the record of the maximal-fitness genome's gene values, fitness
and generation, and the engine state it is read from is returned
unchanged. -/
theorem C9_snapshot_pure (e : EvolutionEngine) (h : e.population ≠ []) :
    ∃ best, pyMaxBy (fun o => o.fitness) e.population = some best ∧
      best ∈ e.population ∧
      (∀ y ∈ e.population, y.fitness ≤ best.fitness) ∧
      get_best_strategy e = some
        ({ gene_values := best.genes.map (fun g => (g.name, g.value)),
           fitness := best.fitness, generation := best.generation }, e) := by
  obtain ⟨best, hbest⟩ := Option.isSome_iff_exists.mp
    ((pyMaxBy_isSome_iff (fun o => o.fitness) e.population).mpr h)
  refine ⟨best, hbest, pyMaxBy_mem _ _ _ hbest, ?_, ?_⟩
  · obtain ⟨i, hi, hge, -⟩ := pyMaxBy_spec (fun o => o.fitness) e.population best hbest
    exact hge
  · simp [get_best_strategy, hbest]

/-- C9 witness: the theorem applied to the concrete single-member
engine E5c. -/
theorem C9_snapshot_pure_witness :
    get_best_strategy E5c = some
      ({ gene_values := [("g", 1)], fitness := 0, generation := 0 }, E5c) := by
  obtain ⟨best, hbest, -, -, heq⟩ := C9_snapshot_pure E5c (by decide)
  have hb : best = o5c :=
    (Option.some.inj ((by decide :
      pyMaxBy (fun o => o.fitness) E5c.population = some o5c).symm.trans hbest)).symm
  rw [heq, hb]
  decide

/-- C10: a freshly constructed engine (before initialize_population) has
an empty population, on which get_best_strategy fails — max over an
empty sequence — and get_best_strategy returns a record exactly for
non-empty populations. -/
theorem C10_empty_population_best (ps : ℕ) (r : ℚ) :
    (mkEngine ps r).population = [] ∧
    get_best_strategy (mkEngine ps r) = none ∧
    ∀ e : EvolutionEngine, (get_best_strategy e).isSome ↔ e.population ≠ [] := by
  refine ⟨rfl, rfl, ?_⟩
  intro e
  cases hbest : pyMaxBy (fun o => o.fitness) e.population with
  | none =>
    have hpop : e.population = [] := by
      by_contra hne
      have hsome := (pyMaxBy_isSome_iff (fun o => o.fitness) e.population).mpr hne
      rw [hbest] at hsome
      exact absurd hsome (by simp)
    simp [get_best_strategy, hbest, hpop, pyMaxBy]
  | some b =>
    have hne : e.population ≠ [] := by
      intro hnil
      rw [hnil] at hbest
      simp [pyMaxBy] at hbest
    simp [get_best_strategy, hbest, hne]

/-- C10 witness: the theorem applied at a concrete configuration. -/
theorem C10_empty_population_best_witness :
    get_best_strategy (mkEngine 7 (1/2)) = none :=
  (C10_empty_population_best 7 (1/2)).2.1

end Aether

namespace Aether

theorem headD_take_append (l r : List Organism) (k : ℕ) (hk : 1 ≤ k)
    (hl : l ≠ []) : ((l.take k) ++ r).headD default = l.headD default := by
  cases l with
  | nil => exact absurd rfl hl
  | cons x xs =>
    cases k with
    | zero => exact absurd hk (by omega)
    | succ k => simp [List.take_succ_cons]

theorem get_zero_eq_headD (l : List Organism) (h : 0 < l.length) :
    l.get ⟨0, h⟩ = l.headD default := by
  cases l with
  | nil => simp at h
  | cons x xs => rfl

theorem headD_mem (l : List Organism) (h : l ≠ []) : l.headD default ∈ l := by
  cases l with
  | nil => exact absurd rfl h
  | cons x xs => simp

theorem evolve_population_length (e : EvolutionEngine) (o : EvolveOracle)
    (e' : EvolutionEngine) (h : evolve_generation e o = some e') :
    e'.population.length = e.population_size := by
  obtain ⟨ev, off, hev, hoff, hpop, hps, hmr, hgen⟩ :=
    evolve_generation_elim e o e' h
  rw [hpop, List.length_append, genOffspring_length e o _ _ 0 off hoff]
  have hle : ((sortByFitnessDesc ev).take (e.population_size / 10)).length
      ≤ e.population_size := by
    rw [List.length_take]
    exact le_trans (min_le_left _ _) (Nat.div_le_self _ _)
  omega

/-- C1 (counterexample): the claimed monotonicity fails on the code
because every generation re-evaluates all fitness with a fresh random
market factor: with a 10-member population (elite_size 1, so the
champion IS retained), market factor 6/5 in the first step and 4/5 in
the second — both legal uniform(0.8, 1.2) draws — the reported best
fitness drops from 24/5 to 16/5. -/
theorem C1_monotonicity_counterexample :
    ((evolve_generation E1c O1c).bind (fun e1 =>
      (evolve_generation e1 O2c).map (fun e2 =>
        (bestFitness e1, bestFitness e2)))) = some ((24/5 : ℚ), (16/5 : ℚ)) ∧
    (16/5 : ℚ) < 24/5 := by decide

/-- C1 (amended): the champion organism is retained unchanged whenever
elite_size = population_size/10 ≥ 1, so if the random market factor is
the same constant in both steps (fitness evaluation is then a function
of the genes alone), the reported best fitness is non-decreasing from
one completed evolve_generation to the next. -/
theorem C1_monotonicity_amended (e : EvolutionEngine) (o1 o2 : EvolveOracle)
    (c : ℚ) (hmf1 : ∀ i, o1.mf i = c) (hmf2 : ∀ i, o2.mf i = c)
    (helite : 1 ≤ e.population_size / 10)
    (e1 e2 : EvolutionEngine)
    (h1 : evolve_generation e o1 = some e1)
    (h2 : evolve_generation e1 o2 = some e2) :
    bestFitness e1 ≤ bestFitness e2 := by
  obtain ⟨ev1, off1, hev1, hoff1, hpop1, hps1, hmr1, hgen1⟩ :=
    evolve_generation_elim e o1 e1 h1
  have hps10 : 10 ≤ e.population_size := by
    by_contra hlt
    rw [Nat.div_eq_of_lt (by omega)] at helite
    exact absurd helite (by norm_num)
  have hpopne : e.population ≠ [] := by
    intro hnil
    have hev_nil : ev1 = [] := by
      rw [hnil] at hev1
      simpa [evalPop] using hev1.symm
    have hS : sortByFitnessDesc ev1 = [] := by
      have hlen : (sortByFitnessDesc ev1).length = 0 := by
        rw [sortByFitnessDesc_length, hev_nil]
        rfl
      exact List.length_eq_zero.mp hlen
    rw [hS] at hoff1
    simp only [List.take_nil, List.length_nil, Nat.sub_zero] at hoff1
    rw [genOffspring_pool_short e o1 [] (by simp) e.population_size 0
      (by omega)] at hoff1
    exact absurd hoff1 (by simp)
  have hS1ne : sortByFitnessDesc ev1 ≠ [] := by
    intro hS
    have hlen0 : ev1.length = 0 := by
      rw [← sortByFitnessDesc_length, hS]
      rfl
    have hplen0 : e.population.length = 0 := by
      rw [← evalPop_length o1.mf 0 e.population ev1 hev1]
      exact hlen0
    exact hpopne (List.length_eq_zero.mp hplen0)
  have hbest1 : bestFitness e1 = ((sortByFitnessDesc ev1).headD default).fitness := by
    unfold bestFitness
    rw [hpop1, headD_take_append _ _ _ helite hS1ne]
  have hchamp_mem : (sortByFitnessDesc ev1).headD default ∈ ev1 :=
    (sortByFitnessDesc_perm ev1).subset (headD_mem _ hS1ne)
  obtain ⟨⟨j, hj⟩, hjeq⟩ := List.mem_iff_get.mp hchamp_mem
  have hj' : j < e.population.length := by
    rw [← evalPop_length o1.mf 0 e.population ev1 hev1]
    exact hj
  have heval1 := evalPop_get o1.mf 0 e.population ev1 hev1 j hj' hj
  rw [hmf1 (0+j), hjeq] at heval1
  have hidem := evaluate_fitness_idem _ _ c heval1
  obtain ⟨ev2, off2, hev2, hoff2, hpop2, hps2, hmr2, hgen2⟩ :=
    evolve_generation_elim e1 o2 e2 h2
  have hlen1 : e1.population.length = e.population_size :=
    evolve_population_length e o1 e1 h1
  have h0lt : 0 < e1.population.length := by omega
  have hget0 : e1.population.get ⟨0, h0lt⟩ = (sortByFitnessDesc ev1).headD default := by
    rw [get_zero_eq_headD e1.population h0lt, hpop1,
      headD_take_append _ _ _ helite hS1ne]
  have h0lt' : 0 < ev2.length := by
    rw [evalPop_length o2.mf 0 e1.population ev2 hev2]
    exact h0lt
  have heval2 := evalPop_get o2.mf 0 e1.population ev2 hev2 0 h0lt h0lt'
  rw [hmf2 (0+0), hget0] at heval2
  have hchamp2 : ev2.get ⟨0, h0lt'⟩ = (sortByFitnessDesc ev1).headD default :=
    (Option.some.inj (hidem.symm.trans heval2)).symm
  have hchamp2_mem : (sortByFitnessDesc ev1).headD default ∈ ev2 := by
    rw [← hchamp2]
    exact List.get_mem ev2 0 h0lt'
  have hS2ne : sortByFitnessDesc ev2 ≠ [] := by
    intro hS
    have hlen0 : ev2.length = 0 := by
      rw [← sortByFitnessDesc_length, hS]
      rfl
    omega
  have helite2 : 1 ≤ e1.population_size / 10 := by
    rw [hps1]
    exact helite
  have hbest2 : bestFitness e2 = ((sortByFitnessDesc ev2).headD default).fitness := by
    unfold bestFitness
    rw [hpop2, headD_take_append _ _ _ helite2 hS2ne]
  rw [hbest1, hbest2]
  exact sortByFitnessDesc_head_ge ev2 _ hchamp2_mem

/-- The engine after one evolve_generation step of E1c under the
constant-market-factor trace O4c, written as a definite value. -/
def E1r : EvolutionEngine :=
  (evolve_generation E1c O4c).getD (mkEngine 0 0)

/-- The engine after a second such step. -/
def E2r : EvolutionEngine :=
  (evolve_generation E1r O4c).getD (mkEngine 0 0)

/-- C1 witness: the amended theorem applied to two concrete consecutive
steps with the same constant market factor 1. -/
theorem C1_monotonicity_amended_witness :
    evolve_generation E1c O4c = some E1r ∧
    evolve_generation E1r O4c = some E2r ∧
    bestFitness E1r ≤ bestFitness E2r := by
  refine ⟨by decide, by decide, ?_⟩
  exact C1_monotonicity_amended E1c O4c O4c 1 (fun i => rfl) (fun i => rfl)
    (by decide) E1r E2r (by decide) (by decide)

end Aether
